import Mathlib

/-
Verification of `process_conversation` (src/modules/speaker_id.py) against
its natural-language specification.  The function is shallowly embedded:
the loop body of lines 34-109 becomes `step`, the loop itself `runLoop`,
and the whole function `processConversation`, which also returns the trace
of collaborator calls so that call-ordering properties can be stated.
External collaborators that are not part of src/ (the transcription
provider, `test_voice_segment`, `format_time`, the stores, the
consolidation pass) are modelled as parameters of the context `Ctx`,
following the interfaces of spec sections 4 and 6.
-/

/-- Events recording the collaborator calls `process_conversation` makes
while handling one conversation: the `test_voice_segment` call (line 51),
the `auto_update_embedding` call (line 84), the `add_utterance` call
(line 95) and the `identify_unknown_speakers_by_combining` pass
(line 112), each call tagged with the utterance index where applicable. -/
inductive Event where
  | testSegment : Nat → Event
  | autoUpdate : Nat → Event
  | addUtterance : Nat → Event
  | consolidate : Event
deriving DecidableEq, Repr

/-- The result quadruple of the external `test_voice_segment` collaborator
(line 51): speaker name (`None` when no profile matched), confidence,
embedding id and raw embedding.  The collaborator itself is not part of
src/, so its outputs are kept abstract (spec section 4.1: the embedding
may be absent; the name is absent exactly when unmatched). -/
structure TestResult where
  name : Option String
  confidence : ℚ
  embedding_id : Option String
  embedding : Option (List ℚ)
deriving DecidableEq

/-- One utterance dict as delivered by the transcription provider.  Every
field the loop body reads is optional because Python raises `KeyError`
when a key is missing (`utterance["start"]`, line 39, etc.), whereas
`"words" not in utterance` (line 35) and `utterance.get("confidence", 0.0)`
(line 58) tolerate absence.  `stop` models the `"end"` key (a reserved
word in Lean); word-level data is an opaque pass-through. -/
structure Utterance where
  words : Option (List String)
  start : Option Int
  stop : Option Int
  speaker : Option String
  text : Option String
  confidence : Option ℚ
deriving DecidableEq

/-- The per-utterance metadata record built at lines 64-76. -/
structure Record where
  id : Nat
  start_ms : Int
  end_ms : Int
  start_time : String
  end_time : String
  text : String
  confidence : ℚ
  speaker : String
  embedding_id : Option String
  words : List String
  conversation_id : String
deriving DecidableEq

/-- Python values appearing in the metadata dict, used to state which keys
and values the returned records do and do not carry. -/
inductive PyVal where
  | str : String → PyVal
  | int : Int → PyVal
  | rat : ℚ → PyVal
  | none : PyVal
  | words : List String → PyVal
deriving DecidableEq

/-- The metadata dict literal of lines 64-76, key by key and in source
order. -/
def Record.toDict (r : Record) : List (String × PyVal) :=
  [("id", .int (r.id : Int)), ("start_ms", .int r.start_ms), ("end_ms", .int r.end_ms),
   ("start_time", .str r.start_time), ("end_time", .str r.end_time),
   ("text", .str r.text), ("confidence", .rat r.confidence),
   ("speaker", .str r.speaker),
   ("embedding_id", match r.embedding_id with | some s => .str s | Option.none => .none),
   ("words", .words r.words), ("conversation_id", .str r.conversation_id)]

/-- The call context of one `process_conversation` run: its arguments plus
the external collaborators that are not part of src/ — the
`convert_to_wav` result (line 10), the database id that `add_conversation`
returned (line 29), `format_time`, `test_voice_segment` (abstracted as a
function of the utterance index and the utterance, which determine the
sliced audio segment of line 48), the consolidation update oracle for
`identify_unknown_speakers_by_combining` (spec section 4.3: same ordered
sequence, only `speaker`/`confidence` of some entries updated), and the
S3 path constants of lines 82 and 94. -/
structure Ctx where
  file_path : String
  wav_file : String
  conversation_id : String
  db_conversation_id : String
  s3_base_path : String
  s3_utterances_path : String
  match_threshold : ℚ
  auto_update_threshold : ℚ
  format_time : Int → String
  tvs : Nat → Utterance → TestResult
  upd : Nat → Option (String × ℚ)
  timestamp : String

/-- Python `f"utterance_{i:03d}.wav"` zero padding (lines 82 and 94). -/
def pad3 (i : Nat) : String :=
  if i < 10 then "00" ++ toString i
  else if i < 100 then "0" ++ toString i
  else toString i

/-- The S3 clip path built at lines 82 and 94. -/
def s3Path (c : Ctx) (i : Nat) : String :=
  c.s3_base_path ++ "/" ++ c.conversation_id ++ "/" ++ c.s3_utterances_path ++
    "/utterance_" ++ pad3 i ++ ".wav"

/-- `os.path.basename` (line 25 and line 124): the characters after the
last path separator. -/
def basename (s : String) : String :=
  String.mk (s.data.foldl (fun acc ch => if ch = '/' then [] else acc ++ [ch]) [])

/-- The outcome of one iteration of the utterance loop (lines 34-109): the
collaborator events it emitted, the metadata record it appended (if any),
whether it raised (`KeyError` on a missing dict key), and the `s3_path`
assignment it made (line 94). -/
structure StepOut where
  events : List Event
  record : Option Record
  err : Bool
  s3 : Option String
deriving DecidableEq

/-- The speaker-name and confidence resolution of lines 56-58: when
`test_voice_segment` returned no (Python-falsy) name, fall back to
`"Speaker_" + utterance["speaker"]` and to the provider confidence
`utterance.get("confidence", 0.0)`; `none` models the `KeyError` raised
when the `"speaker"` key is missing on that path. -/
def resolveName (t : TestResult) (u : Utterance) : Option (String × ℚ) :=
  if t.name.getD "" = "" then
    match u.speaker with
    | some tag => some ("Speaker_" ++ tag, u.confidence.getD 0)
    | none => none
  else some (t.name.getD "", t.confidence)

/-- One iteration of the loop body, lines 34-109, with dict accesses in
source order: the `"words"` membership test (line 35), `start`/`end`
access (lines 39-40), the 700 ms duration filter (line 44), the
`test_voice_segment` call (line 51), the name and confidence resolution
of lines 56-58, the metadata record (lines 64-77), the auto-update gate
(line 80), and the `s3_path` assignment and `add_utterance` call (lines
94-109). -/
def step (c : Ctx) (i : Nat) (u : Utterance) : StepOut :=
  match u.words with
  | none => ⟨[], none, false, none⟩
  | some w =>
    match u.start, u.stop with
    | some s, some e =>
      if e - s < 700 then ⟨[], none, false, none⟩
      else
        match resolveName (c.tvs i u) u with
        | none => ⟨[.testSegment i], none, true, none⟩
        | some (nm, conf) =>
          match u.text with
          | none => ⟨[.testSegment i], none, true, none⟩
          | some txt =>
            ⟨[.testSegment i] ++
               (if (c.tvs i u).embedding.isSome ∧ conf > c.auto_update_threshold
                then [.autoUpdate i] else []) ++ [.addUtterance i],
             some ⟨i, s, e, c.format_time s, c.format_time e, txt, conf, nm,
                   (c.tvs i u).embedding_id, w, c.db_conversation_id⟩,
             false, some (s3Path c i)⟩
    | _, _ => ⟨[], none, true, none⟩

/-- The state accumulated by the loop of line 34: the `utterance_metadata`
list, the event trace, the last `s3_path` assignment, and whether the loop
ran to completion without raising. -/
structure LoopOut where
  metadata : List Record
  events : List Event
  s3 : Option String
  ok : Bool
deriving DecidableEq

/-- The utterance loop (lines 34-109): iterations run strictly in list
order; an exception abandons the remaining iterations (control jumps to
the `except` of line 130). -/
def runLoop (c : Ctx) : Nat → List Utterance → LoopOut
  | _, [] => ⟨[], [], none, true⟩
  | i, u :: rest =>
    let so := step c i u
    if so.err then ⟨[], so.events, none, false⟩
    else
      let L := runLoop c (i + 1) rest
      ⟨so.record.toList ++ L.metadata, so.events ++ L.events,
       (match L.s3 with | some p => some p | none => so.s3), L.ok⟩

/-- Modelled from the spec: `identify_unknown_speakers_by_combining`
(line 112) is not part of src/; spec section 4.3 specifies that it
returns the same ordered sequence with the `resolved_speaker` and
`confidence` of some entries possibly overwritten, which is modelled by
an arbitrary per-entry update oracle. -/
def consolidate (upd : Nat → Option (String × ℚ)) (l : List Record) : List Record :=
  l.map fun r =>
    match upd r.id with
    | some nc => { r with speaker := nc.1, confidence := nc.2 }
    | none => r

/-- The result dict of lines 122-128. -/
structure ConvResult where
  conversation_id : String
  original_file : String
  s3_path : String
  utterances : List Record
  timestamp : String
deriving DecidableEq

/-- The whole of `process_conversation` after the collaborator setup:
run the loop; if it raised, the `except` of line 130 returns `None`.
Otherwise the consolidation pass of line 112 runs once, and the result
dict of lines 122-128 is built — reading the local `s3_path`, which was
only ever assigned inside the loop (line 94), so that a run in which no
utterance was processed raises `NameError` there and the `except` again
returns `None`.  The second component is the full collaborator-call
trace. -/
def processConversation (c : Ctx) (utts : List Utterance) :
    Option ConvResult × List Event :=
  let L := runLoop c 0 utts
  if L.ok then
    let meta := consolidate c.upd L.metadata
    let tr := L.events ++ [Event.consolidate]
    match L.s3 with
    | some p => (some ⟨c.conversation_id, basename c.file_path, p, meta, c.timestamp⟩, tr)
    | none => (none, tr)
  else (none, L.events)

/-- `process_conversation` together with the `finally` clause of lines
135-139, acting on a file system modelled as the list of existing paths:
the temporary WAV file is removed when it differs from the input path and
exists; the `finally` clause runs on the successful and on the erroring
return path alike. -/
def processConversationFs (c : Ctx) (utts : List Utterance) (fs : List String) :
    (Option ConvResult × List Event) × List String :=
  (processConversation c utts,
   if c.wav_file ≠ c.file_path ∧ c.wav_file ∈ fs then
     fs.filter (fun p => p ≠ c.wav_file)
   else fs)

/-- The utterance index an event is tagged with (`consolidate` carries
none). -/
def Event.idx : Event → Option Nat
  | .testSegment i => some i
  | .autoUpdate i => some i
  | .addUtterance i => some i
  | .consolidate => Option.none

/-- `a` occurs strictly before `b` in the list `l`. -/
def precedes (a b : Event) (l : List Event) : Prop :=
  ∃ l₁ l₂ l₃, l = l₁ ++ a :: (l₂ ++ b :: l₃)

/-- An utterance survives the pre-filters of lines 35 and 44 and so
produces a metadata record when all its other fields are present. -/
def survives (u : Utterance) : Bool :=
  match u.words, u.start, u.stop with
  | some _, some s, some e => !decide (e - s < 700)
  | _, _, _ => false

/-- The indices (counting from `n`) of the utterances that survive the
pre-filters. -/
def survivorIds : Nat → List Utterance → List Nat
  | _, [] => []
  | n, u :: rest =>
    if survives u then n :: survivorIds (n + 1) rest else survivorIds (n + 1) rest

/-- All fields the loop body may read are present. -/
def wellFormed (u : Utterance) : Bool :=
  u.words.isSome && u.start.isSome && u.stop.isSome && u.speaker.isSome && u.text.isSome

/-- The utterance is dropped by one of the two pre-filters: its word-level
data is missing (line 35) or its duration is below 700 ms (line 44). -/
def preFiltered (u : Utterance) : Bool :=
  match u.words with
  | none => true
  | some _ =>
    match u.start, u.stop with
    | some s, some e => decide (e - s < 700)
    | _, _ => false

/-- A stand-in for the external `format_time` helper used by the concrete
instances below. -/
def fmtD : Int → String := fun n => toString n

/-- The rational 0.95, written without division so that the kernel can
evaluate it. -/
def q95 : ℚ := ⟨19, 20, by decide, by decide⟩

/-- The rational 0.9. -/
def q90 : ℚ := ⟨9, 10, by decide, by decide⟩

/-- The rational 0.5. -/
def q50 : ℚ := ⟨1, 2, by decide, by decide⟩

/-- A concrete `test_voice_segment` outcome that matches a profile with
high confidence and returns an embedding. -/
def tvsMatch : Nat → Utterance → TestResult :=
  fun _ _ => ⟨some "Alice", q95, some "emb-1", some [1]⟩

/-- A concrete `test_voice_segment` outcome that matches no profile but
still returns the extracted embedding (spec section 4.1: unmatched;
section 9: the embedding is produced regardless). -/
def tvsNoMatch : Nat → Utterance → TestResult :=
  fun _ _ => ⟨none, q95, some "emb-1", some [1]⟩

/-- A concrete context with the given matcher, identity consolidation
oracle, match threshold 0.5 and auto-update threshold 0.9. -/
def mkCtx (tvs : Nat → Utterance → TestResult) : Ctx :=
  ⟨"in.mp3", "in.wav", "convo_1", "db-1", "s3", "utts", q50, q90, fmtD, tvs,
   fun _ => none, "t0"⟩

/-- Concrete context whose matcher always matches. -/
def ctxW : Ctx := mkCtx tvsMatch

/-- Concrete context whose matcher never matches but returns embeddings. -/
def ctx3 : Ctx := mkCtx tvsNoMatch

/-- A fully well-formed 1000 ms utterance. -/
def uGood : Utterance := ⟨some ["w"], some 0, some 1000, some "A", some "hi", some q50⟩

/-- A fully well-formed 650 ms utterance (below the 700 ms floor). -/
def uShort : Utterance := ⟨some ["w"], some 0, some 650, some "A", some "hi", some q50⟩

/-- An utterance whose word-level data is missing. -/
def uNoWords : Utterance := ⟨none, some 0, some 1000, some "A", some "hi", some q50⟩

/-- An utterance with word-level data but no `"start"` key. -/
def uNoStart : Utterance := ⟨some ["w"], none, some 1000, some "A", some "hi", some q50⟩

/-- A well-formed utterance whose provider confidence is 0.95. -/
def u3 : Utterance := ⟨some ["w"], some 0, some 1000, some "A", some "hi", some q95⟩

-- Concrete evaluations checking the embedding against hand-traced runs.
example : (processConversation ctxW [uGood]).2 =
    [.testSegment 0, .autoUpdate 0, .addUtterance 0, .consolidate] := by decide
example : (processConversation ctxW [uShort]).1 = none := by decide
example : (processConversation ctxW [uShort]).2 = [.consolidate] := by decide
example : (processConversation ctxW [uNoStart, uGood]).1 = none := by decide
example : (processConversation ctxW [uNoStart, uGood]).2 = [] := by decide
example : (runLoop ctx3 0 [u3]).metadata =
    [⟨0, 0, 1000, "0", "1000", "hi", q95, "Speaker_A", some "emb-1", ["w"], "db-1"⟩] := by decide
example : Event.autoUpdate 0 ∈ (processConversation ctx3 [u3]).2 := by decide
example : (processConversation ctxW [uGood]).1 =
    some ⟨"convo_1", "in.mp3", "s3/convo_1/utts/utterance_000.wav",
      [⟨0, 0, 1000, "0", "1000", "hi", q95, "Alice", some "emb-1", ["w"], "db-1"⟩], "t0"⟩ := by decide

lemma step_words_none (c : Ctx) (i : Nat) (u : Utterance) (h : u.words = none) :
    step c i u = ⟨[], none, false, none⟩ := by
  obtain ⟨ws, st, en, sp, tx, cf⟩ := u
  cases ws with
  | none => rfl
  | some w => simp at h

lemma step_preFiltered (c : Ctx) (i : Nat) (u : Utterance) (h : preFiltered u = true) :
    step c i u = ⟨[], none, false, none⟩ := by
  obtain ⟨ws, st, en, sp, tx, cf⟩ := u
  unfold preFiltered at h
  unfold step
  cases ws with
  | none => rfl
  | some w =>
    simp only at h
    cases st with
    | none => simp at h
    | some s =>
      cases en with
      | none => simp at h
      | some e =>
        simp only [decide_eq_true_eq] at h
        simp [h]

lemma step_events_idx (c : Ctx) (i : Nat) (u : Utterance) (ev : Event)
    (h : ev ∈ (step c i u).events) : ev.idx = some i := by
  obtain ⟨ws, st, en, sp, tx, cf⟩ := u
  unfold step at h
  cases ws with
  | none => simp at h
  | some w =>
    cases st with
    | none => simp at h
    | some s =>
      cases en with
      | none => simp at h
      | some e =>
        by_cases hd : e - s < 700
        · simp [hd] at h
        · simp only [hd, if_false] at h
          split at h
          · simp at h; subst h; rfl
          · split at h
            · simp at h; subst h; rfl
            · simp only [List.mem_append, List.mem_singleton] at h
              rcases h with (h | h) | h
              · subst h; rfl
              · split at h
                · simp only [List.mem_singleton] at h
                  subst h; rfl
                · simp at h
              · subst h; rfl

lemma resolveName_fallback (t : TestResult) (u : Utterance) (nm : String) (conf : ℚ)
    (hn : t.name.getD "" = "") (h : resolveName t u = some (nm, conf)) :
    ∃ tag, u.speaker = some tag ∧ nm = "Speaker_" ++ tag ∧ conf = u.confidence.getD 0 := by
  unfold resolveName at h
  rw [if_pos hn] at h
  cases hsp : u.speaker with
  | none => rw [hsp] at h; simp at h
  | some tag =>
    rw [hsp] at h
    simp only [Option.some.injEq, Prod.mk.injEq] at h
    exact ⟨tag, rfl, h.1.symm, h.2.symm⟩

lemma resolveName_matched (t : TestResult) (u : Utterance) (nm : String) (conf : ℚ)
    (hn : ¬t.name.getD "" = "") (h : resolveName t u = some (nm, conf)) :
    nm = t.name.getD "" ∧ conf = t.confidence := by
  unfold resolveName at h
  rw [if_neg hn] at h
  simp only [Option.some.injEq, Prod.mk.injEq] at h
  exact ⟨h.1.symm, h.2.symm⟩

lemma resolveName_isSome (t : TestResult) (u : Utterance) (tag : String)
    (hsp : u.speaker = some tag) : (resolveName t u).isSome = true := by
  unfold resolveName
  rw [hsp]
  split
  · rfl
  · rfl

lemma step_record_inv (c : Ctx) (i : Nat) (u : Utterance) (r : Record)
    (h : (step c i u).record = some r) :
    ∃ w s e nm conf txt,
      u.words = some w ∧ u.start = some s ∧ u.stop = some e ∧ ¬(e - s < 700) ∧
      resolveName (c.tvs i u) u = some (nm, conf) ∧ u.text = some txt ∧
      r = ⟨i, s, e, c.format_time s, c.format_time e, txt, conf, nm,
           (c.tvs i u).embedding_id, w, c.db_conversation_id⟩ := by
  obtain ⟨ws, st, en, sp, tx, cf⟩ := u
  unfold step at h
  cases ws with
  | none => simp at h
  | some w =>
    cases st with
    | none => simp at h
    | some s =>
      cases en with
      | none => simp at h
      | some e =>
        dsimp only at h
        by_cases hd : e - s < 700
        · rw [if_pos hd] at h; simp at h
        · rw [if_neg hd] at h
          cases hnc : resolveName (c.tvs i ⟨some w, some s, some e, sp, tx, cf⟩)
              ⟨some w, some s, some e, sp, tx, cf⟩ with
          | none => rw [hnc] at h; simp at h
          | some p =>
            rw [hnc] at h
            obtain ⟨nm, conf⟩ := p
            cases tx with
            | none => simp at h
            | some txt =>
              dsimp only at h
              refine ⟨w, s, e, nm, conf, txt, rfl, rfl, rfl, hd, rfl, rfl, ?_⟩
              exact (Option.some.inj h).symm

lemma step_full (c : Ctx) (i : Nat) (u : Utterance) (w : List String) (s e : Int)
    (nm : String) (conf : ℚ) (txt : String)
    (hw : u.words = some w) (hs : u.start = some s) (he : u.stop = some e)
    (hd : ¬e - s < 700) (hnc : resolveName (c.tvs i u) u = some (nm, conf))
    (htx : u.text = some txt) :
    step c i u = ⟨[.testSegment i] ++
        (if (c.tvs i u).embedding.isSome ∧ conf > c.auto_update_threshold
         then [.autoUpdate i] else []) ++ [.addUtterance i],
      some ⟨i, s, e, c.format_time s, c.format_time e, txt, conf, nm,
            (c.tvs i u).embedding_id, w, c.db_conversation_id⟩,
      false, some (s3Path c i)⟩ := by
  obtain ⟨ws, st, en, sp, tx, cf⟩ := u
  obtain rfl : ws = some w := hw
  obtain rfl : st = some s := hs
  obtain rfl : en = some e := he
  obtain rfl : tx = some txt := htx
  unfold step
  dsimp only
  rw [if_neg hd, hnc]

lemma step_err_record (c : Ctx) (i : Nat) (u : Utterance)
    (h : (step c i u).err = true) : (step c i u).record = none := by
  obtain ⟨ws, st, en, sp, tx, cf⟩ := u
  unfold step at h ⊢
  cases ws with
  | none => rfl
  | some w =>
    cases st with
    | none => rfl
    | some s =>
      cases en with
      | none => rfl
      | some e =>
        dsimp only at h ⊢
        by_cases hd : e - s < 700
        · rw [if_pos hd]
        · rw [if_neg hd] at h ⊢
          cases hnc : resolveName (c.tvs i ⟨some w, some s, some e, sp, tx, cf⟩)
              ⟨some w, some s, some e, sp, tx, cf⟩ with
          | none => rfl
          | some p =>
            obtain ⟨nm, conf⟩ := p
            cases tx with
            | none => rfl
            | some txt => rw [hnc] at h; simp at h

lemma step_test_inv (c : Ctx) (i j : Nat) (u : Utterance)
    (h : Event.testSegment j ∈ (step c i u).events) :
    j = i ∧ ∃ w s e, u.words = some w ∧ u.start = some s ∧ u.stop = some e ∧
      ¬(e - s < 700) := by
  obtain ⟨ws, st, en, sp, tx, cf⟩ := u
  unfold step at h
  cases ws with
  | none => simp at h
  | some w =>
    cases st with
    | none => simp at h
    | some s =>
      cases en with
      | none => simp at h
      | some e =>
        dsimp only at h
        by_cases hd : e - s < 700
        · rw [if_pos hd] at h; simp at h
        · refine ⟨?_, w, s, e, rfl, rfl, rfl, hd⟩
          rw [if_neg hd] at h
          cases hnc : resolveName (c.tvs i ⟨some w, some s, some e, sp, tx, cf⟩)
              ⟨some w, some s, some e, sp, tx, cf⟩ with
          | none =>
            rw [hnc] at h
            simpa using h
          | some p =>
            rw [hnc] at h
            obtain ⟨nm, conf⟩ := p
            cases tx with
            | none => simpa using h
            | some txt =>
              dsimp only at h
              by_cases hg : (c.tvs i ⟨some w, some s, some e, sp, some txt, cf⟩).embedding.isSome = true ∧
                  conf > c.auto_update_threshold
              · rw [if_pos hg] at h
                simpa using h
              · rw [if_neg hg] at h
                simpa using h

lemma step_auto_mem_iff (c : Ctx) (i : Nat) (u : Utterance) :
    Event.autoUpdate i ∈ (step c i u).events ↔
      ∃ r, (step c i u).record = some r ∧ (c.tvs i u).embedding.isSome = true ∧
        r.confidence > c.auto_update_threshold := by
  constructor
  · intro h
    obtain ⟨ws, st, en, sp, tx, cf⟩ := u
    unfold step at h
    cases ws with
    | none => simp at h
    | some w =>
      cases st with
      | none => simp at h
      | some s =>
        cases en with
        | none => simp at h
        | some e =>
          dsimp only at h
          by_cases hd : e - s < 700
          · rw [if_pos hd] at h; simp at h
          · rw [if_neg hd] at h
            cases hnc : resolveName (c.tvs i ⟨some w, some s, some e, sp, tx, cf⟩)
                ⟨some w, some s, some e, sp, tx, cf⟩ with
            | none => rw [hnc] at h; simp at h
            | some p =>
              rw [hnc] at h
              obtain ⟨nm, conf⟩ := p
              cases tx with
              | none => simp at h
              | some txt =>
                dsimp only at h
                by_cases hg : (c.tvs i ⟨some w, some s, some e, sp, some txt, cf⟩).embedding.isSome = true ∧
                    conf > c.auto_update_threshold
                · rw [step_full c i ⟨some w, some s, some e, sp, some txt, cf⟩ w s e nm conf txt
                      rfl rfl rfl hd hnc rfl]
                  exact ⟨_, rfl, hg.1, hg.2⟩
                · rw [if_neg hg] at h
                  simp at h
  · rintro ⟨r, hr, hemb, hconf⟩
    obtain ⟨w, s, e, nm, conf, txt, hw, hs, he, hd, hnc, htx, hreq⟩ :=
      step_record_inv c i u r hr
    subst hreq
    rw [step_full c i u w s e nm conf txt hw hs he hd hnc htx]
    simp only [List.mem_append, List.mem_singleton]
    left; right
    rw [if_pos ⟨hemb, hconf⟩]
    simp

lemma step_auto_shape (c : Ctx) (i : Nat) (u : Utterance)
    (h : Event.autoUpdate i ∈ (step c i u).events) :
    (step c i u).events = [.testSegment i, .autoUpdate i, .addUtterance i] := by
  obtain ⟨r, hr, hemb, hconf⟩ := (step_auto_mem_iff c i u).mp h
  obtain ⟨w, s, e, nm, conf, txt, hw, hs, he, hd, hnc, htx, hreq⟩ :=
    step_record_inv c i u r hr
  subst hreq
  rw [step_full c i u w s e nm conf txt hw hs he hd hnc htx]
  rw [if_pos ⟨hemb, hconf⟩]
  rfl

lemma step_no_consolidate (c : Ctx) (i : Nat) (u : Utterance) :
    Event.consolidate ∉ (step c i u).events := by
  intro h
  have := step_events_idx c i u _ h
  simp [Event.idx] at this

lemma runLoop_cons_err (c : Ctx) (n : Nat) (u : Utterance) (rest : List Utterance)
    (h : (step c n u).err = true) :
    runLoop c n (u :: rest) = ⟨[], (step c n u).events, none, false⟩ := by
  simp [runLoop, h]

lemma runLoop_cons_ok (c : Ctx) (n : Nat) (u : Utterance) (rest : List Utterance)
    (h : (step c n u).err = false) :
    runLoop c n (u :: rest) =
      ⟨(step c n u).record.toList ++ (runLoop c (n + 1) rest).metadata,
       (step c n u).events ++ (runLoop c (n + 1) rest).events,
       (match (runLoop c (n + 1) rest).s3 with
        | some p => some p
        | none => (step c n u).s3),
       (runLoop c (n + 1) rest).ok⟩ := by
  simp [runLoop, h]

lemma runLoop_events_src (c : Ctx) :
    ∀ (l : List Utterance) (n : Nat) (ev : Event), ev ∈ (runLoop c n l).events →
      ∃ k u, l.get? k = some u ∧ ev ∈ (step c (n + k) u).events := by
  intro l
  induction l with
  | nil => intro n ev h; simp [runLoop] at h
  | cons u rest ih =>
    intro n ev h
    by_cases he : (step c n u).err = true
    · rw [runLoop_cons_err c n u rest he] at h
      exact ⟨0, u, rfl, h⟩
    · have he' : (step c n u).err = false := by simpa using he
      rw [runLoop_cons_ok c n u rest he'] at h
      dsimp only at h
      rcases List.mem_append.mp h with h1 | h2
      · exact ⟨0, u, rfl, h1⟩
      · obtain ⟨k, u', hk, hm⟩ := ih (n + 1) ev h2
        refine ⟨k + 1, u', by simpa using hk, ?_⟩
        have hidx : n + (k + 1) = n + 1 + k := by omega
        rw [hidx]
        exact hm

lemma runLoop_record_src (c : Ctx) :
    ∀ (l : List Utterance) (n : Nat) (r : Record), r ∈ (runLoop c n l).metadata →
      ∃ k u, l.get? k = some u ∧ (step c (n + k) u).record = some r ∧
        ∀ ev ∈ (step c (n + k) u).events, ev ∈ (runLoop c n l).events := by
  intro l
  induction l with
  | nil => intro n r h; simp [runLoop] at h
  | cons u rest ih =>
    intro n r h
    by_cases he : (step c n u).err = true
    · rw [runLoop_cons_err c n u rest he] at h
      simp at h
    · have he' : (step c n u).err = false := by simpa using he
      rw [runLoop_cons_ok c n u rest he'] at h ⊢
      dsimp only at h ⊢
      rcases List.mem_append.mp h with h1 | h2
      · refine ⟨0, u, rfl, ?_, ?_⟩
        · exact Option.mem_toList.mp h1
        · intro ev hev
          exact List.mem_append_left _ hev
      · obtain ⟨k, u', hk, hrec, hsub⟩ := ih (n + 1) r h2
        have hidx : n + (k + 1) = n + 1 + k := by omega
        refine ⟨k + 1, u', by simpa using hk, by rw [hidx]; exact hrec, ?_⟩
        intro ev hev
        rw [hidx] at hev
        exact List.mem_append_right _ (hsub ev hev)

lemma runLoop_events_ge (c : Ctx) (l : List Utterance) (n : Nat) (ev : Event)
    (h : ev ∈ (runLoop c n l).events) : ∃ m, ev.idx = some m ∧ n ≤ m := by
  obtain ⟨k, u, _, hm⟩ := runLoop_events_src c l n ev h
  exact ⟨n + k, step_events_idx c (n + k) u ev hm, Nat.le_add_right n k⟩

lemma runLoop_no_consolidate (c : Ctx) (l : List Utterance) (n : Nat) :
    Event.consolidate ∉ (runLoop c n l).events := by
  intro h
  obtain ⟨k, u, _, hm⟩ := runLoop_events_src c l n _ h
  exact step_no_consolidate c (n + k) u hm

lemma precedes_append_left (a b : Event) (l₁ l₂ : List Event) (h : precedes a b l₂) :
    precedes a b (l₁ ++ l₂) := by
  obtain ⟨m₁, m₂, m₃, rfl⟩ := h
  exact ⟨l₁ ++ m₁, m₂, m₃, by simp⟩

lemma precedes_append_right (a b : Event) (l l' : List Event) (h : precedes a b l) :
    precedes a b (l ++ l') := by
  obtain ⟨m₁, m₂, m₃, rfl⟩ := h
  exact ⟨m₁, m₂, m₃ ++ l', by simp⟩

lemma runLoop_ord (c : Ctx) :
    ∀ (l : List Utterance) (n i j : Nat), i < j →
      Event.autoUpdate i ∈ (runLoop c n l).events →
      Event.testSegment j ∈ (runLoop c n l).events →
      precedes (Event.autoUpdate i) (Event.testSegment j) (runLoop c n l).events := by
  intro l
  induction l with
  | nil => intro n i j hij ha ht; simp [runLoop] at ha
  | cons u rest ih =>
    intro n i j hij ha ht
    by_cases he : (step c n u).err = true
    · rw [runLoop_cons_err c n u rest he] at ha ht ⊢
      dsimp only at ha
      have hidx := step_events_idx c n u _ ha
      simp only [Event.idx, Option.some.injEq] at hidx
      subst hidx
      obtain ⟨r, hr, _, _⟩ := (step_auto_mem_iff c i u).mp ha
      rw [step_err_record c i u he] at hr
      simp at hr
    · have he' : (step c n u).err = false := by simpa using he
      rw [runLoop_cons_ok c n u rest he'] at ha ht ⊢
      dsimp only at ha ht ⊢
      rcases List.mem_append.mp ha with ha1 | ha2
      · have hidx := step_events_idx c n u _ ha1
        simp only [Event.idx, Option.some.injEq] at hidx
        subst hidx
        have hshape := step_auto_shape c i u ha1
        rcases List.mem_append.mp ht with ht1 | ht2
        · have hj := step_events_idx c i u _ ht1
          simp only [Event.idx, Option.some.injEq] at hj
          omega
        · obtain ⟨m₁, m₂, hsplit⟩ := List.append_of_mem ht2
          rw [hshape, hsplit]
          exact ⟨[Event.testSegment i], [Event.addUtterance i] ++ m₁, m₂, by simp⟩
      · rcases List.mem_append.mp ht with ht1 | ht2
        · have hj := step_events_idx c n u _ ht1
          simp only [Event.idx, Option.some.injEq] at hj
          obtain ⟨m, hm, hge⟩ := runLoop_events_ge c rest (n + 1) _ ha2
          simp only [Event.idx, Option.some.injEq] at hm
          omega
        · exact precedes_append_left _ _ _ _ (ih (n + 1) i j hij ha2 ht2)

lemma processConversation_eq (c : Ctx) (utts : List Utterance) :
    processConversation c utts =
      if (runLoop c 0 utts).ok then
        match (runLoop c 0 utts).s3 with
        | some p => (some ⟨c.conversation_id, basename c.file_path, p,
             consolidate c.upd (runLoop c 0 utts).metadata, c.timestamp⟩,
           (runLoop c 0 utts).events ++ [Event.consolidate])
        | none => (none, (runLoop c 0 utts).events ++ [Event.consolidate])
      else (none, (runLoop c 0 utts).events) := rfl

lemma processConversation_trace (c : Ctx) (utts : List Utterance) :
    (processConversation c utts).2 = (runLoop c 0 utts).events ++ [Event.consolidate] ∨
    (processConversation c utts).2 = (runLoop c 0 utts).events := by
  rw [processConversation_eq]
  by_cases hok : (runLoop c 0 utts).ok
  · rw [if_pos hok]
    cases hs3 : (runLoop c 0 utts).s3
    · left; rfl
    · left; rfl
  · rw [if_neg hok]
    right; rfl

lemma processConversation_some (c : Ctx) (utts : List Utterance) (res : ConvResult)
    (h : (processConversation c utts).1 = some res) :
    (runLoop c 0 utts).ok = true ∧ ∃ p, (runLoop c 0 utts).s3 = some p ∧
      res = ⟨c.conversation_id, basename c.file_path, p,
             consolidate c.upd (runLoop c 0 utts).metadata, c.timestamp⟩ := by
  rw [processConversation_eq] at h
  by_cases hok : (runLoop c 0 utts).ok
  · rw [if_pos hok] at h
    cases hs3 : (runLoop c 0 utts).s3 with
    | none => rw [hs3] at h; simp at h
    | some p =>
      rw [hs3] at h
      exact ⟨hok, p, rfl, (Option.some.inj h).symm⟩
  · rw [if_neg hok] at h
    simp at h

lemma trace_mem_loop (c : Ctx) (utts : List Utterance) (ev : Event)
    (hev : ev ≠ Event.consolidate) (h : ev ∈ (processConversation c utts).2) :
    ev ∈ (runLoop c 0 utts).events := by
  rcases processConversation_trace c utts with ht | ht
  · rw [ht] at h
    rcases List.mem_append.mp h with h1 | h1
    · exact h1
    · simp at h1; exact absurd h1 hev
  · rw [ht] at h
    exact h

lemma loop_mem_trace (c : Ctx) (utts : List Utterance) (ev : Event)
    (h : ev ∈ (runLoop c 0 utts).events) : ev ∈ (processConversation c utts).2 := by
  rcases processConversation_trace c utts with ht | ht
  · rw [ht]
    exact List.mem_append_left _ h
  · rw [ht]
    exact h

lemma trace_count_consolidate (c : Ctx) (utts : List Utterance) :
    (processConversation c utts).2.count Event.consolidate =
      if (runLoop c 0 utts).ok then 1 else 0 := by
  have hz : (runLoop c 0 utts).events.count Event.consolidate = 0 :=
    List.count_eq_zero.mpr (runLoop_no_consolidate c utts 0)
  rw [processConversation_eq]
  by_cases hok : (runLoop c 0 utts).ok
  · rw [if_pos hok, if_pos hok]
    cases hs3 : (runLoop c 0 utts).s3
    · simpa [List.count_append] using hz
    · simpa [List.count_append] using hz
  · rw [if_neg hok, if_neg hok]
    exact hz

lemma consolidate_cons (upd : Nat → Option (String × ℚ)) (r : Record) (l : List Record) :
    consolidate upd (r :: l) =
      (match upd r.id with
       | some nc => { r with speaker := nc.1, confidence := nc.2 }
       | none => r) :: consolidate upd l := rfl

lemma consolidate_map_id (upd : Nat → Option (String × ℚ)) (l : List Record) :
    (consolidate upd l).map Record.id = l.map Record.id := by
  induction l with
  | nil => rfl
  | cons r rest ih =>
    rw [consolidate_cons]
    simp only [List.map_cons, ih]
    congr 1
    cases hupd : upd r.id <;> rfl

lemma consolidate_mem_inv (upd : Nat → Option (String × ℚ)) (l : List Record) (r : Record)
    (h : r ∈ consolidate upd l) :
    ∃ r₀ ∈ l, r.id = r₀.id ∧ r.start_ms = r₀.start_ms ∧ r.end_ms = r₀.end_ms ∧
      r.start_time = r₀.start_time ∧ r.end_time = r₀.end_time ∧ r.text = r₀.text ∧
      r.embedding_id = r₀.embedding_id ∧ r.words = r₀.words ∧
      r.conversation_id = r₀.conversation_id := by
  unfold consolidate at h
  obtain ⟨r₀, hr₀, heq⟩ := List.mem_map.mp h
  refine ⟨r₀, hr₀, ?_⟩
  cases hupd : upd r₀.id with
  | none =>
    rw [hupd] at heq
    subst heq
    exact ⟨rfl, rfl, rfl, rfl, rfl, rfl, rfl, rfl, rfl⟩
  | some nc =>
    rw [hupd] at heq
    subst heq
    exact ⟨rfl, rfl, rfl, rfl, rfl, rfl, rfl, rfl, rfl⟩

lemma step_wf_notSurvives (c : Ctx) (i : Nat) (u : Utterance)
    (hwf : wellFormed u = true) (hsv : survives u = false) :
    step c i u = ⟨[], none, false, none⟩ := by
  obtain ⟨ws, st, en, sp, tx, cf⟩ := u
  unfold wellFormed at hwf
  unfold survives at hsv
  cases ws with
  | none => simp at hwf
  | some w =>
    cases st with
    | none => simp at hwf
    | some s =>
      cases en with
      | none => simp at hwf
      | some e =>
        dsimp only at hsv
        have hd : e - s < 700 := by simpa using hsv
        unfold step
        dsimp only
        rw [if_pos hd]

lemma step_wf_survives (c : Ctx) (i : Nat) (u : Utterance)
    (hwf : wellFormed u = true) (hsv : survives u = true) :
    ∃ r, (step c i u).record = some r ∧ r.id = i ∧ (step c i u).err = false ∧
      (step c i u).s3 = some (s3Path c i) := by
  obtain ⟨ws, st, en, sp, tx, cf⟩ := u
  unfold wellFormed at hwf
  unfold survives at hsv
  cases ws with
  | none => simp at hwf
  | some w =>
    cases st with
    | none => simp at hwf
    | some s =>
      cases en with
      | none => simp at hwf
      | some e =>
        dsimp only at hsv
        have hd : ¬e - s < 700 := by simpa using hsv
        cases sp with
        | none => simp at hwf
        | some tag =>
          cases tx with
          | none => simp at hwf
          | some txt =>
            have hncs := resolveName_isSome
              (c.tvs i ⟨some w, some s, some e, some tag, some txt, cf⟩)
              ⟨some w, some s, some e, some tag, some txt, cf⟩ tag rfl
            obtain ⟨p, hnc⟩ := Option.isSome_iff_exists.mp hncs
            obtain ⟨nm, conf⟩ := p
            rw [step_full c i ⟨some w, some s, some e, some tag, some txt, cf⟩ w s e nm conf txt
                rfl rfl rfl hd hnc rfl]
            exact ⟨_, rfl, rfl, rfl, rfl⟩

lemma survivorIds_ne_nil (u : Utterance) :
    ∀ (l : List Utterance) (n : Nat), u ∈ l → survives u = true → survivorIds n l ≠ [] := by
  intro l
  induction l with
  | nil => intro n hu; simp at hu
  | cons v rest ih =>
    intro n hu hs
    rcases List.mem_cons.mp hu with rfl | hu'
    · simp [survivorIds, hs]
    · unfold survivorIds
      by_cases hv : survives v = true
      · simp [hv]
      · simp only [hv, if_false]
        exact ih (n + 1) hu' hs

lemma runLoop_wf (c : Ctx) :
    ∀ (l : List Utterance) (n : Nat), (∀ u ∈ l, wellFormed u = true) →
      (runLoop c n l).ok = true ∧
      (runLoop c n l).metadata.map Record.id = survivorIds n l ∧
      ((runLoop c n l).s3.isSome = true ↔ survivorIds n l ≠ []) := by
  intro l
  induction l with
  | nil =>
    intro n _
    refine ⟨rfl, rfl, ?_⟩
    simp [runLoop, survivorIds]
  | cons u rest ih =>
    intro n h
    have hwf := h u (List.mem_cons_self u rest)
    have hrest : ∀ v ∈ rest, wellFormed v = true :=
      fun v hv => h v (List.mem_cons_of_mem u hv)
    obtain ⟨ihok, ihmap, ihs3⟩ := ih (n + 1) hrest
    cases hsv : survives u with
    | false =>
      have hstep := step_wf_notSurvives c n u hwf hsv
      have herr : (step c n u).err = false := by rw [hstep]
      rw [runLoop_cons_ok c n u rest herr, hstep]
      dsimp only
      refine ⟨ihok, ?_, ?_⟩
      · simpa [survivorIds, hsv] using ihmap
      · simp only [survivorIds, hsv, if_false]
        cases hs3 : (runLoop c (n + 1) rest).s3 with
        | none =>
          rw [hs3] at ihs3
          simpa using ihs3
        | some p =>
          rw [hs3] at ihs3
          simpa using ihs3
    | true =>
      obtain ⟨r, hrec, hrid, herr, hs3u⟩ := step_wf_survives c n u hwf hsv
      rw [runLoop_cons_ok c n u rest herr]
      dsimp only
      refine ⟨ihok, ?_, ?_⟩
      · rw [hrec]
        simp only [Option.toList_some, List.cons_append, List.map_cons, hrid, ihmap,
          survivorIds, hsv, if_true, List.nil_append]
      · simp only [survivorIds, hsv, if_true]
        cases hs3 : (runLoop c (n + 1) rest).s3 with
        | none => simp [hs3u]
        | some p => simp

lemma runLoop_preFiltered (c : Ctx) :
    ∀ (l : List Utterance) (n : Nat), (∀ u ∈ l, preFiltered u = true) →
      runLoop c n l = ⟨[], [], none, true⟩ := by
  intro l
  induction l with
  | nil => intro n _; rfl
  | cons u rest ih =>
    intro n h
    have hstep := step_preFiltered c n u (h u (List.mem_cons_self u rest))
    have herr : (step c n u).err = false := by rw [hstep]
    rw [runLoop_cons_ok c n u rest herr, hstep,
      ih (n + 1) (fun v hv => h v (List.mem_cons_of_mem u hv))]
    rfl

lemma runLoop_events_src0 (c : Ctx) (utts : List Utterance) (ev : Event)
    (h : ev ∈ (runLoop c 0 utts).events) :
    ∃ k u, utts.get? k = some u ∧ ev ∈ (step c k u).events := by
  obtain ⟨k, u, hk, hm⟩ := runLoop_events_src c utts 0 ev h
  rw [Nat.zero_add] at hm
  exact ⟨k, u, hk, hm⟩

lemma runLoop_record_src0 (c : Ctx) (utts : List Utterance) (r : Record)
    (h : r ∈ (runLoop c 0 utts).metadata) :
    ∃ k u, utts.get? k = some u ∧ (step c k u).record = some r ∧
      ∀ ev ∈ (step c k u).events, ev ∈ (runLoop c 0 utts).events := by
  obtain ⟨k, u, hk, hrec, hsub⟩ := runLoop_record_src c utts 0 r h
  rw [Nat.zero_add] at hrec
  simp only [Nat.zero_add] at hsub
  exact ⟨k, u, hk, hrec, hsub⟩

lemma step_record_id (c : Ctx) (i : Nat) (u : Utterance) (r : Record)
    (h : (step c i u).record = some r) : r.id = i := by
  obtain ⟨w, s, e, nm, conf, txt, _, _, _, _, _, _, hreq⟩ := step_record_inv c i u r h
  rw [hreq]

lemma step_start_none (c : Ctx) (i : Nat) (u : Utterance) (w : List String)
    (hw : u.words = some w) (hs : u.start = none) :
    step c i u = ⟨[], none, true, none⟩ := by
  obtain ⟨ws, st, en, sp, tx, cf⟩ := u
  obtain rfl : ws = some w := hw
  obtain rfl : st = none := hs
  unfold step
  cases en <;> rfl

/-- The metadata record that `ctxW` produces for `uGood` at index 0. -/
def rW : Record := ⟨0, 0, 1000, "0", "1000", "hi", q95, "Alice", some "emb-1", ["w"], "db-1"⟩

/-- The metadata record that `ctx3` produces for `u3` at index 0: the
fallback label with the provider confidence. -/
def r3 : Record := ⟨0, 0, 1000, "0", "1000", "hi", q95, "Speaker_A", some "emb-1", ["w"], "db-1"⟩

/-- The result that `processConversation ctxW [uGood]` returns. -/
def resW : ConvResult := ⟨"convo_1", "in.mp3", "s3/convo_1/utts/utterance_000.wav", [rW], "t0"⟩

/-- C1: for every utterance whose duration `end_ms - start_ms` is strictly
below 700 ms, `process_conversation` skips it before matching:
`test_voice_segment` is never called for its index, and no record with
its index appears in the returned utterance list. -/
theorem c1_short_skipped_before_matching (c : Ctx) (utts : List Utterance) (i : Nat)
    (u : Utterance) (s e : Int) (hu : utts.get? i = some u)
    (hs : u.start = some s) (he : u.stop = some e) (hd : e - s < 700) :
    Event.testSegment i ∉ (processConversation c utts).2 ∧
    ∀ res, (processConversation c utts).1 = some res →
      ∀ r ∈ res.utterances, r.id ≠ i := by
  constructor
  · intro hmem
    have hl := trace_mem_loop c utts _ (by simp) hmem
    obtain ⟨k, u', hk, hm⟩ := runLoop_events_src0 c utts _ hl
    obtain ⟨hik, w, s', e', hw', hs', he', hd'⟩ := step_test_inv c k i u' hm
    subst hik
    have hu' : u' = u := Option.some.inj (hk.symm.trans hu)
    subst hu'
    rw [hs] at hs'
    obtain rfl : s = s' := Option.some.inj hs'
    rw [he] at he'
    obtain rfl : e = e' := Option.some.inj he'
    exact hd' hd
  · intro res hres r hr hri
    obtain ⟨hok, p, hs3, hreseq⟩ := processConversation_some c utts res hres
    subst hreseq
    dsimp only at hr
    obtain ⟨r₀, hr₀, hid, _, _, _, _, _, _, _, _⟩ := consolidate_mem_inv c.upd _ r hr
    obtain ⟨k, u', hk, hrec, _⟩ := runLoop_record_src0 c utts r₀ hr₀
    have hr0id : r₀.id = k := step_record_id c k u' r₀ hrec
    have hik : i = k := by omega
    subst hik
    have hu'' : u' = u := Option.some.inj (hk.symm.trans hu)
    rw [hu''] at hrec
    obtain ⟨w, s', e', nm, conf, txt, hw', hs', he', hd', hnc', htx', hreq⟩ :=
      step_record_inv c i u r₀ hrec
    rw [hs] at hs'
    obtain rfl : s = s' := Option.some.inj hs'
    rw [he] at he'
    obtain rfl : e = e' := Option.some.inj he'
    exact hd' hd

/-- C1 witness: the 650 ms utterance at index 0 of a concrete conversation
is never matched and never appears in the result. -/
theorem c1_witness :
    Event.testSegment 0 ∉ (processConversation ctxW [uShort, uGood]).2 ∧
    ∀ res, (processConversation ctxW [uShort, uGood]).1 = some res →
      ∀ r ∈ res.utterances, r.id ≠ 0 :=
  c1_short_skipped_before_matching ctxW [uShort, uGood] 0 uShort 0 650
    (by decide) (by decide) (by decide) (by decide)

/-- C2: for every processed utterance (one whose record was appended to
the metadata list), `auto_update_embedding` is called if and only if the
embedding returned by `test_voice_segment` is present and the recorded
confidence is strictly greater than `auto_update_threshold`; at exact
equality no enrollment happens. -/
theorem c2_auto_update_iff (c : Ctx) (utts : List Utterance) (r : Record) (u : Utterance)
    (hr : r ∈ (runLoop c 0 utts).metadata) (hu : utts.get? r.id = some u) :
    (Event.autoUpdate r.id ∈ (processConversation c utts).2 ↔
      ((c.tvs r.id u).embedding.isSome = true ∧
        r.confidence > c.auto_update_threshold)) ∧
    (r.confidence = c.auto_update_threshold →
      Event.autoUpdate r.id ∉ (processConversation c utts).2) := by
  obtain ⟨k, u', hk, hrec, hsub⟩ := runLoop_record_src0 c utts r hr
  have hrid : r.id = k := step_record_id c k u' r hrec
  subst hrid
  have hu'' : u' = u := Option.some.inj (hk.symm.trans hu)
  rw [hu''] at hrec hsub
  have hiff : Event.autoUpdate r.id ∈ (processConversation c utts).2 ↔
      ((c.tvs r.id u).embedding.isSome = true ∧
        r.confidence > c.auto_update_threshold) := by
    constructor
    · intro h
      have hl := trace_mem_loop c utts _ (by simp) h
      obtain ⟨k₂, u₂, hk₂, hm₂⟩ := runLoop_events_src0 c utts _ hl
      have hidx := step_events_idx c k₂ u₂ _ hm₂
      simp only [Event.idx, Option.some.injEq] at hidx
      subst hidx
      have hu₂ : u₂ = u := Option.some.inj (hk₂.symm.trans hu)
      rw [hu₂] at hm₂
      obtain ⟨r₂, hrec₂, hemb, hconf⟩ := (step_auto_mem_iff c r.id u).mp hm₂
      have hr₂ : r₂ = r := Option.some.inj (hrec₂.symm.trans hrec)
      rw [hr₂] at hconf
      exact ⟨hemb, hconf⟩
    · rintro ⟨hemb, hconf⟩
      exact loop_mem_trace c utts _
        (hsub _ ((step_auto_mem_iff c r.id u).mpr ⟨r, hrec, hemb, hconf⟩))
  refine ⟨hiff, fun heq hmem => ?_⟩
  have hgt := (hiff.mp hmem).2
  rw [heq] at hgt
  exact lt_irrefl _ hgt

/-- C2 witness: for the concrete high-confidence matched utterance the
enrollment call fires, and would not fire at exact threshold equality. -/
theorem c2_witness :
    (Event.autoUpdate rW.id ∈ (processConversation ctxW [uGood]).2 ↔
      ((ctxW.tvs rW.id uGood).embedding.isSome = true ∧
        rW.confidence > ctxW.auto_update_threshold)) ∧
    (rW.confidence = ctxW.auto_update_threshold →
      Event.autoUpdate rW.id ∉ (processConversation ctxW [uGood]).2) :=
  c2_auto_update_iff ctxW [uGood] rW uGood (by decide) (by decide)

/-- C3 counterexample: with a matcher that found no profile (name `None`)
but returned the extracted embedding, and a provider confidence of 0.95
above the 0.9 auto-update threshold, the utterance is recorded under the
fallback label `Speaker_A` (unmatched) and yet its embedding is enrolled:
`auto_update_embedding` is called for it.  This refutes the claim that
auto-enrollment happens only for identity-matched utterances. -/
theorem c3_counterexample :
    ∃ r ∈ (runLoop ctx3 0 [u3]).metadata, r.speaker = "Speaker_A" ∧
      Event.autoUpdate r.id ∈ (processConversation ctx3 [u3]).2 := by decide

/-- C3 amended: the enrollment gate of line 80 tests only that the
embedding is present and that the (post-fallback) confidence exceeds
`auto_update_threshold`; so an utterance left unmatched (falsy name from
`test_voice_segment`) whose embedding is present and whose provider
confidence exceeds the threshold is also enrolled, under its fallback
label. -/
theorem c3_amended_unmatched_enrolls (c : Ctx) (utts : List Utterance) (r : Record)
    (u : Utterance) (hr : r ∈ (runLoop c 0 utts).metadata)
    (hu : utts.get? r.id = some u)
    (hnm : (c.tvs r.id u).name.getD "" = "")
    (hemb : (c.tvs r.id u).embedding.isSome = true)
    (hconf : u.confidence.getD 0 > c.auto_update_threshold) :
    Event.autoUpdate r.id ∈ (processConversation c utts).2 := by
  obtain ⟨k, u', hk, hrec, hsub⟩ := runLoop_record_src0 c utts r hr
  have hrid : r.id = k := step_record_id c k u' r hrec
  subst hrid
  have hu'' : u' = u := Option.some.inj (hk.symm.trans hu)
  rw [hu''] at hrec hsub
  obtain ⟨w, s, e, nm, conf, txt, hw, hs, he, hd, hnc, htx, hreq⟩ :=
    step_record_inv c r.id u r hrec
  obtain ⟨tag, hsp, hnm', hcf⟩ := resolveName_fallback _ _ _ _ hnm hnc
  have hrc : r.confidence = u.confidence.getD 0 := by rw [hreq]; exact hcf
  exact loop_mem_trace c utts _
    (hsub _ ((step_auto_mem_iff c r.id u).mpr ⟨r, hrec, hemb, by rw [hrc]; exact hconf⟩))

/-- C3 amended witness: the enrollment event fires for the concrete
unmatched utterance of the counterexample. -/
theorem c3_witness : Event.autoUpdate r3.id ∈ (processConversation ctx3 [u3]).2 :=
  c3_amended_unmatched_enrolls ctx3 [u3] r3 u3 (by decide) (by decide) (by decide)
    (by decide) (by decide)

/-- C4: for every processed utterance for which matching yields no
speaker (Python-falsy name), the recorded speaker is the string
`"Speaker_"` followed by the provider's raw tag and the recorded
confidence is the provider's own confidence, defaulting to 0 when the
provider supplies none. -/
theorem c4_fallback_label_and_confidence (c : Ctx) (utts : List Utterance) (r : Record)
    (u : Utterance) (hr : r ∈ (runLoop c 0 utts).metadata)
    (hu : utts.get? r.id = some u)
    (hnm : (c.tvs r.id u).name.getD "" = "") :
    ∃ tag, u.speaker = some tag ∧ r.speaker = "Speaker_" ++ tag ∧
      r.confidence = u.confidence.getD 0 := by
  obtain ⟨k, u', hk, hrec, hsub⟩ := runLoop_record_src0 c utts r hr
  have hrid : r.id = k := step_record_id c k u' r hrec
  subst hrid
  have hu'' : u' = u := Option.some.inj (hk.symm.trans hu)
  rw [hu''] at hrec
  obtain ⟨w, s, e, nm, conf, txt, hw, hs, he, hd, hnc, htx, hreq⟩ :=
    step_record_inv c r.id u r hrec
  obtain ⟨tag, hsp, hnm', hcf⟩ := resolveName_fallback _ _ _ _ hnm hnc
  refine ⟨tag, hsp, ?_, ?_⟩
  · rw [hreq]
    exact hnm'
  · rw [hreq]
    exact hcf

/-- C4 witness: the concrete unmatched utterance gets speaker
`Speaker_A` and the provider confidence 0.95. -/
theorem c4_witness :
    ∃ tag, u3.speaker = some tag ∧ r3.speaker = "Speaker_" ++ tag ∧
      r3.confidence = u3.confidence.getD 0 :=
  c4_fallback_label_and_confidence ctx3 [u3] r3 u3 (by decide) (by decide) (by decide)

/-- C5: utterances are processed strictly in array order with no overlap:
an auto-enrollment call for an earlier index always precedes the matching
call for a later index in the collaborator-call trace; the consolidation
pass runs at most once, exactly once whenever a result is returned, and
always after every matching call. -/
theorem c5_sequential_order (c : Ctx) (utts : List Utterance) :
    (∀ i j, i < j → Event.autoUpdate i ∈ (processConversation c utts).2 →
       Event.testSegment j ∈ (processConversation c utts).2 →
       precedes (Event.autoUpdate i) (Event.testSegment j)
         (processConversation c utts).2) ∧
    (processConversation c utts).2.count Event.consolidate ≤ 1 ∧
    ((processConversation c utts).1.isSome = true →
       (processConversation c utts).2.count Event.consolidate = 1) ∧
    (∀ k, Event.testSegment k ∈ (processConversation c utts).2 →
       Event.consolidate ∈ (processConversation c utts).2 →
       precedes (Event.testSegment k) Event.consolidate
         (processConversation c utts).2) := by
  refine ⟨?_, ?_, ?_, ?_⟩
  · intro i j hij ha ht
    have ha' := trace_mem_loop c utts _ (by simp) ha
    have ht' := trace_mem_loop c utts _ (by simp) ht
    have hp := runLoop_ord c utts 0 i j hij ha' ht'
    rcases processConversation_trace c utts with htr | htr
    · rw [htr]
      exact precedes_append_right _ _ _ _ hp
    · rw [htr]
      exact hp
  · rw [trace_count_consolidate]
    by_cases hok : (runLoop c 0 utts).ok <;> simp [hok]
  · intro hsome
    obtain ⟨res, hres⟩ := Option.isSome_iff_exists.mp hsome
    obtain ⟨hok, _, _, _⟩ := processConversation_some c utts res hres
    rw [trace_count_consolidate, if_pos hok]
  · intro k ht hc
    rcases processConversation_trace c utts with htr | htr
    · have htl := trace_mem_loop c utts _ (by simp) ht
      obtain ⟨m₁, m₂, hsplit⟩ := List.append_of_mem htl
      rw [htr, hsplit]
      exact ⟨m₁, m₂, [], by simp⟩
    · rw [htr] at hc
      exact absurd hc (runLoop_no_consolidate c utts 0)

/-- C5 witness: in a two-utterance conversation with high-confidence
matches, the enrollment for index 0 precedes the matching call for
index 1, and consolidation runs exactly once. -/
theorem c5_witness :
    precedes (Event.autoUpdate 0) (Event.testSegment 1)
      (processConversation ctxW [uGood, uGood]).2 ∧
    (processConversation ctxW [uGood, uGood]).2.count Event.consolidate = 1 :=
  ⟨(c5_sequential_order ctxW [uGood, uGood]).1 0 1 (by decide) (by decide) (by decide),
   (c5_sequential_order ctxW [uGood, uGood]).2.2.1 (by decide)⟩

/-- C6 counterexample: a conversation whose only utterance is malformed
(missing word-level data, a degraded path) does not return the result
object: `process_conversation` returns `None`, because the local
`s3_path` read at line 125 was never assigned. -/
theorem c6_counterexample :
    uNoWords.words = none ∧ (processConversation ctxW [uNoWords]).1 = none := by decide

/-- C6 amended: when every utterance is well-formed and at least one
survives the pre-filters, `process_conversation` returns the result
object, and the shape of the returned list — its sequence of utterance
indices — is exactly the surviving indices, independent of any
collaborator outcome (no-match, missing embedding, or enrollment-gate
failure never change it). -/
theorem c6_amended_degraded_keeps_shape (c : Ctx) (utts : List Utterance)
    (hwf : ∀ u ∈ utts, wellFormed u = true)
    (hs : ∃ u ∈ utts, survives u = true) :
    ∃ res, (processConversation c utts).1 = some res ∧
      res.utterances.map Record.id = survivorIds 0 utts := by
  obtain ⟨hok, hmap, hs3iff⟩ := runLoop_wf c utts 0 hwf
  obtain ⟨u, hu, hsv⟩ := hs
  have hne := survivorIds_ne_nil u utts 0 hu hsv
  have hs3' : (runLoop c 0 utts).s3.isSome = true := hs3iff.mpr hne
  obtain ⟨p, hp⟩ := Option.isSome_iff_exists.mp hs3'
  refine ⟨⟨c.conversation_id, basename c.file_path, p,
      consolidate c.upd (runLoop c 0 utts).metadata, c.timestamp⟩, ?_, ?_⟩
  · rw [processConversation_eq, if_pos hok, hp]
  · dsimp only
    rw [consolidate_map_id, hmap]

/-- C6 amended witness: a concrete conversation with one filtered and one
surviving utterance returns a result whose id sequence is the surviving
index. -/
theorem c6_witness :
    ∃ res, (processConversation ctxW [uShort, uGood]).1 = some res ∧
      res.utterances.map Record.id = survivorIds 0 [uShort, uGood] :=
  c6_amended_degraded_keeps_shape ctxW [uShort, uGood] (by decide) (by decide)

/-- C7 counterexample: an utterance that has word-level data but no
`"start"` key is not skipped: the `KeyError` of line 39 aborts the whole
conversation, so the following well-formed utterance is never matched
and `process_conversation` returns `None` instead of continuing. -/
theorem c7_counterexample :
    (processConversation ctxW [uNoStart, uGood]).1 = none ∧
    Event.testSegment 1 ∉ (processConversation ctxW [uNoStart, uGood]).2 := by decide

/-- C7 amended: only an utterance missing its word-level data is skipped
with processing continuing (the loop state is exactly that of the
remaining utterances); an utterance that has word-level data but is
missing its `"start"` key instead raises, abandoning the rest of the
loop. -/
theorem c7_amended_only_missing_words_skips (c : Ctx) (n : Nat) (u : Utterance)
    (rest : List Utterance) :
    (u.words = none → runLoop c n (u :: rest) = runLoop c (n + 1) rest) ∧
    (u.words.isSome = true → u.start = none →
      runLoop c n (u :: rest) = ⟨[], [], none, false⟩) := by
  constructor
  · intro hw
    have hstep := step_words_none c n u hw
    have herr : (step c n u).err = false := by rw [hstep]
    rw [runLoop_cons_ok c n u rest herr, hstep]
    rcases hL : runLoop c (n + 1) rest with ⟨m, ev, s3v, okv⟩
    cases s3v <;> simp
  · intro hw hs
    obtain ⟨w, hw'⟩ := Option.isSome_iff_exists.mp hw
    have hstep := step_start_none c n u w hw' hs
    rw [runLoop_cons_err c n u rest (by rw [hstep]), hstep]

/-- C7 amended witness: the missing-words utterance is skipped and the
loop continues exactly as on the remaining list; the missing-start
utterance aborts the loop. -/
theorem c7_witness :
    runLoop ctxW 0 (uNoWords :: [uGood]) = runLoop ctxW 1 [uGood] ∧
    runLoop ctxW 0 (uNoStart :: [uGood]) = ⟨[], [], none, false⟩ :=
  ⟨(c7_amended_only_missing_words_skips ctxW 0 uNoWords [uGood]).1 (by decide),
   (c7_amended_only_missing_words_skips ctxW 0 uNoStart [uGood]).2 (by decide) (by decide)⟩

/-- C8 counterexample: a concrete successful run returns a non-empty
utterance list in which no record carries the utterance's stable
audio-clip reference: none of the values in the record dict equals the
S3 clip path of that utterance (the path is only passed to the
persistent store at line 104 and exposed as the single top-level
`s3_path` of line 125). -/
theorem c8_counterexample :
    (processConversation ctxW [uGood]).1 = some resW ∧
    resW.utterances ≠ [] ∧
    ∀ r ∈ resW.utterances, ∀ kv ∈ r.toDict,
      kv.2 ≠ PyVal.str (s3Path ctxW r.id) := by decide

/-- C8 amended: every record in the returned list carries exactly the
eleven keys of lines 64-76 — index, span in ms, formatted span, text,
confidence, speaker, embedding reference, word-level pass-through and
the database conversation id — with the values the loop computed from
the source utterance; no audio-clip reference is among them. -/
theorem c8_amended_record_fields (c : Ctx) (utts : List Utterance) (res : ConvResult)
    (h : (processConversation c utts).1 = some res) :
    ∀ r ∈ res.utterances,
      r.toDict.map Prod.fst =
        ["id", "start_ms", "end_ms", "start_time", "end_time", "text", "confidence",
         "speaker", "embedding_id", "words", "conversation_id"] ∧
      ∃ u, utts.get? r.id = some u ∧ u.words = some r.words ∧ u.text = some r.text ∧
        u.start = some r.start_ms ∧ u.stop = some r.end_ms ∧
        r.start_time = c.format_time r.start_ms ∧
        r.end_time = c.format_time r.end_ms ∧
        r.embedding_id = (c.tvs r.id u).embedding_id ∧
        r.conversation_id = c.db_conversation_id := by
  intro r hr
  obtain ⟨hok, p, hs3, hreseq⟩ := processConversation_some c utts res h
  subst hreseq
  dsimp only at hr
  obtain ⟨r₀, hr₀, hid, hsm, hem, hst, het, htx2, heid, hwd, hcid⟩ :=
    consolidate_mem_inv c.upd _ r hr
  obtain ⟨k, u, hk, hrec, _⟩ := runLoop_record_src0 c utts r₀ hr₀
  obtain ⟨w, s, e, nm, conf, txt, hw, hs', he', hd, hnc, htx', hreq⟩ :=
    step_record_inv c k u r₀ hrec
  subst hreq
  have hid' : r.id = k := hid
  have hwd' : r.words = w := hwd
  have htx2' : r.text = txt := htx2
  have hsm' : r.start_ms = s := hsm
  have hem' : r.end_ms = e := hem
  have hst' : r.start_time = c.format_time s := hst
  have het' : r.end_time = c.format_time e := het
  have heid' : r.embedding_id = (c.tvs k u).embedding_id := heid
  refine ⟨rfl, u, ?_, ?_, ?_, ?_, ?_, ?_, ?_, ?_, ?_⟩
  · rw [hid']
    exact hk
  · rw [hwd']
    exact hw
  · rw [htx2']
    exact htx'
  · rw [hsm']
    exact hs'
  · rw [hem']
    exact he'
  · rw [hst', hsm']
  · rw [het', hem']
  · rw [heid', hid']
  · exact hcid

/-- C8 amended witness: the concrete returned record carries exactly the
eleven keys with the loop-computed values. -/
theorem c8_witness :
    rW.toDict.map Prod.fst =
      ["id", "start_ms", "end_ms", "start_time", "end_time", "text", "confidence",
       "speaker", "embedding_id", "words", "conversation_id"] ∧
    ∃ u, [uGood].get? rW.id = some u ∧ u.words = some rW.words ∧ u.text = some rW.text ∧
      u.start = some rW.start_ms ∧ u.stop = some rW.end_ms ∧
      rW.start_time = ctxW.format_time rW.start_ms ∧
      rW.end_time = ctxW.format_time rW.end_ms ∧
      rW.embedding_id = (ctxW.tvs rW.id u).embedding_id ∧
      rW.conversation_id = ctxW.db_conversation_id :=
  c8_amended_record_fields ctxW [uGood] resW (by decide) rW (by decide)

/-- C9: when every utterance of the conversation is dropped by a
pre-filter (missing word-level data or duration below 700 ms — which
covers the empty conversation), `process_conversation` returns `None`
rather than a result object with an empty list, because the local
`s3_path` read at line 125 is only ever assigned inside the loop. -/
theorem c9_all_filtered_returns_none (c : Ctx) (utts : List Utterance)
    (h : ∀ u ∈ utts, preFiltered u = true) :
    (processConversation c utts).1 = none := by
  have hloop := runLoop_preFiltered c utts 0 h
  rw [processConversation_eq, hloop]
  rfl

/-- C9 witness: a conversation holding only a 650 ms utterance returns
`None`. -/
theorem c9_witness : (processConversation ctxW [uShort]).1 = none :=
  c9_all_filtered_returns_none ctxW [uShort] (by decide)

/-- C10: on every return path, if audio conversion produced a temporary
WAV path different from the input path and that path exists, it is
absent from the file system at return, while the original input file's
existence is unchanged (it is never deleted). -/
theorem c10_temp_wav_cleanup (c : Ctx) (utts : List Utterance) (fs : List String) :
    (c.wav_file ≠ c.file_path → c.wav_file ∉ (processConversationFs c utts fs).2) ∧
    (c.file_path ∈ (processConversationFs c utts fs).2 ↔ c.file_path ∈ fs) := by
  unfold processConversationFs
  dsimp only
  by_cases hcond : c.wav_file ≠ c.file_path ∧ c.wav_file ∈ fs
  · rw [if_pos hcond]
    refine ⟨fun _ hmem => ?_, ?_, ?_⟩
    · rcases List.mem_filter.mp hmem with ⟨_, hp⟩
      simp at hp
    · intro hmem
      exact (List.mem_filter.mp hmem).1
    · intro hmem
      exact List.mem_filter.mpr ⟨hmem, decide_eq_true (Ne.symm hcond.1)⟩
  · rw [if_neg hcond]
    exact ⟨fun hne hmem => hcond ⟨hne, hmem⟩, Iff.rfl⟩

/-- C10 witness: with a distinct temporary WAV file present, it is gone
at return and the original input is still present. -/
theorem c10_witness :
    ctxW.wav_file ∉ (processConversationFs ctxW [uGood] ["in.wav", "in.mp3"]).2 ∧
    (ctxW.file_path ∈ (processConversationFs ctxW [uGood] ["in.wav", "in.mp3"]).2 ↔
      ctxW.file_path ∈ ["in.wav", "in.mp3"]) :=
  ⟨(c10_temp_wav_cleanup ctxW [uGood] ["in.wav", "in.mp3"]).1 (by decide),
   (c10_temp_wav_cleanup ctxW [uGood] ["in.wav", "in.mp3"]).2⟩
